import Mathlib

/-
Verification of the tag-service core (src/tag.ts).

The service persists tag documents in a MongoDB-style document store; we
embed a collection as a list of documents and the store primitives
(updateOne, find) as pure functions.  updateOne updates the first document
matching the filter and reports modifiedCount = 1 exactly when the applied
write actually changed that document, mirroring the store's semantics.
-/

namespace TagService

/-- A persisted tag document.  Owned and shared tags live in two
collections of the same shape.  updateTs may be absent (null). -/
structure Tag where
  _id : String
  dId : String
  lId : String
  userId : String
  tag : String
  deleted : Bool
  encKey : String
  encConfig : String
  createTs : Nat
  updateTs : Option Nat
  deleteTs : Option Nat
  schemaVersion : Nat
  deriving DecidableEq, Repr

/-- Result shape of the store's updateOne. -/
structure UpdateResult where
  acknowledged : Bool
  modifiedCount : Nat
  deriving DecidableEq, Repr

/-- Store primitive: find returns every document matching the filter. -/
def find (filter : Tag → Bool) (coll : List Tag) : List Tag :=
  coll.filter filter

/-- Store primitive: updateOne rewrites the first document matching the
filter; modifiedCount is 1 exactly when the write changed that document. -/
def updateOne (filter : Tag → Bool) (f : Tag → Tag) : List Tag → UpdateResult × List Tag
  | [] => (⟨true, 0⟩, [])
  | t :: rest =>
    if filter t then
      if f t = t then (⟨true, 0⟩, t :: rest)
      else (⟨true, 1⟩, f t :: rest)
    else
      let r := updateOne filter f rest
      (r.1, t :: r.2)

/-- The timestamp gate of updateTag's filter: the stored updateTs is
absent (null) or strictly below the candidate timestamp.  This is the
disjunction of the two branches the source puts under a single filter key. -/
def updateGate (ts : Nat) (t : Tag) : Bool :=
  match t.updateTs with
  | some s => decide (s < ts)
  | none => true

/-- The match filter of updateTag: id, owner, not soft-deleted, and the
timestamp gate. -/
def updateTagFilter (userId tagId : String) (ts : Nat) (t : Tag) : Bool :=
  t._id == tagId && t.userId == userId && t.deleted == false && updateGate ts t

/-- The field-change set updateTagDetails passes to the generic writer. -/
structure TagUpdates where
  tag : String
  encKey : String
  encConfig : String
  schemaVersion : Nat
  deriving DecidableEq, Repr

/-- Apply a field-change set to a document (the store sets exactly the
listed fields). -/
def applyUpdates (u : TagUpdates) (t : Tag) : Tag :=
  { t with tag := u.tag, encKey := u.encKey, encConfig := u.encConfig,
           schemaVersion := u.schemaVersion }

/-- The full write of updateTag: the spread of the field-change set with
updateTs overridden by the candidate timestamp. -/
def updateWrite (u : TagUpdates) (ts : Nat) (t : Tag) : Tag :=
  { applyUpdates u t with updateTs := some ts }

/-- updateTag: the generic atomic conditional update on the owned
collection.  The call returns true exactly when the update was
acknowledged and modified a document. -/
def updateTag (userId tagId : String) (updates : TagUpdates) (updateTs : Nat)
    (coll : List Tag) : Bool × List Tag :=
  let r := updateOne (updateTagFilter userId tagId updateTs)
    (updateWrite updates updateTs) coll
  (r.1.acknowledged && decide (0 < r.1.modifiedCount), r.2)

/-- updateTagShared: the same conditional update, against the shared
collection. -/
def updateTagShared (userId tagId : String) (updates : TagUpdates) (updateTs : Nat)
    (coll : List Tag) : Bool × List Tag :=
  let r := updateOne (updateTagFilter userId tagId updateTs)
    (updateWrite updates updateTs) coll
  (r.1.acknowledged && decide (0 < r.1.modifiedCount), r.2)

/-- updateTagDetails: delegates to updateTag with the payload fields plus
schemaVersion as the field-change set. -/
def updateTagDetails (userId tagId : String) (tag encKey encConfig : String)
    (updateTs : Nat) (schemaVersion : Nat) (coll : List Tag) : Bool × List Tag :=
  let result := updateTag userId tagId
    ⟨tag, encKey, encConfig, schemaVersion⟩ updateTs coll
  (if result.1 then true else false, result.2)

/-- updateTagDetailsShared: delegates to updateTagShared with the same
field-change set. -/
def updateTagDetailsShared (userId tagId : String) (tag encKey encConfig : String)
    (updateTs : Nat) (schemaVersion : Nat) (coll : List Tag) : Bool × List Tag :=
  let result := updateTagShared userId tagId
    ⟨tag, encKey, encConfig, schemaVersion⟩ updateTs coll
  (if result.1 then true else false, result.2)

/-- The match filter of deleteSoftTag: id, owner, not already
soft-deleted — and nothing else, in particular no timestamp condition. -/
def softDeleteFilter (userId tagId : String) (t : Tag) : Bool :=
  t._id == tagId && t.userId == userId && t.deleted == false

/-- The write of deleteSoftTag: clear the payload fields, set the
tombstone flag, record deleteTs.  updateTs is left untouched. -/
def softDeleteWrite (deleteTs : Nat) (t : Tag) : Tag :=
  { t with tag := "", deleted := true, encKey := "", encConfig := "",
           deleteTs := some deleteTs }

/-- deleteSoftTag: matches on (id, userId, deleted=false) only — no
timestamp condition — and tombstones the document. -/
def deleteSoftTag (userId tagId : String) (deleteTs : Nat)
    (coll : List Tag) : Bool × List Tag :=
  let r := updateOne (softDeleteFilter userId tagId) (softDeleteWrite deleteTs) coll
  (r.1.acknowledged && decide (0 < r.1.modifiedCount), r.2)

/-- The apiFields projection of the read paths.  The projection string
lists every field of the document shape, so on this model it rebuilds the
record field by field. -/
def apiFieldsProj (t : Tag) : Tag :=
  { _id := t._id, dId := t.dId, lId := t.lId, userId := t.userId, tag := t.tag,
    deleted := t.deleted, encKey := t.encKey, encConfig := t.encConfig,
    createTs := t.createTs, updateTs := t.updateTs, deleteTs := t.deleteTs,
    schemaVersion := t.schemaVersion }

/-- Modelled from the spec: the apiFieldsSync projection is declared on
the CommonService base class, whose source is not in the repository; the
spec states the sync path exposes the full field set, so the projection
rebuilds the whole record. -/
def apiFieldsSyncProj (t : Tag) : Tag :=
  { _id := t._id, dId := t.dId, lId := t.lId, userId := t.userId, tag := t.tag,
    deleted := t.deleted, encKey := t.encKey, encConfig := t.encConfig,
    createTs := t.createTs, updateTs := t.updateTs, deleteTs := t.deleteTs,
    schemaVersion := t.schemaVersion }

/-- getAllCurrentTags: active (non-tombstoned) documents of a user, under
the apiFields projection. -/
def getAllCurrentTags (userId : String) (coll : List Tag) : List Tag :=
  (find (fun t => t.userId == userId && t.deleted == false) coll).map apiFieldsProj

/-- getAllTagsForBackup: active documents of a user with no projection at
all — the raw stored documents. -/
def getAllTagsForBackup (userId : String) (coll : List Tag) : List Tag :=
  find (fun t => t.userId == userId && t.deleted == false) coll

/-- getAllTagsSync: every document of a user, tombstones included, under
the sync projection. -/
def getAllTagsSync (userId : String) (coll : List Tag) : List Tag :=
  (find (fun t => t.userId == userId) coll).map apiFieldsSyncProj

/-- An element of the JSON batch handed to addTagsFromJson: the full
document shape, including the updateTs the import then discards. -/
structure ImportTag where
  _id : String
  dId : String
  lId : String
  userId : String
  deleted : Bool
  tag : String
  encKey : String
  encConfig : String
  createTs : Nat
  updateTs : Option Nat
  deleteTs : Option Nat
  schemaVersion : Nat
  deriving DecidableEq, Repr

/-- The document addTagsFromJson hands to create for one batch record:
every field is copied from the record except updateTs, which is set to the
server's current time. -/
def importDoc (now : Nat) (r : ImportTag) : Tag :=
  { _id := r._id, dId := r.dId, lId := r.lId, userId := r.userId, tag := r.tag,
    deleted := r.deleted, encKey := r.encKey, encConfig := r.encConfig,
    createTs := r.createTs, updateTs := some now, deleteTs := r.deleteTs,
    schemaVersion := r.schemaVersion }

/-- addTagsFromJson: walks the batch in order; each successful create
appends its document; the walk stops at the first record whose create does
not return a truthy document and the whole call then reports failure.  The
store's create behaviour is the parameter ok; now is the server time. -/
def addTagsFromJson (ok : ImportTag → Bool) (now : Nat) (coll : List Tag) :
    List ImportTag → Bool × List Tag
  | [] => (true, coll)
  | r :: rest =>
    if ok r then addTagsFromJson ok now (coll ++ [importDoc now r]) rest
    else (false, coll)

/-! Helper lemmas about the store primitives. -/

/-- updateOne is always acknowledged: the model carries no infrastructure
faults, so every outcome is value-returned. -/
theorem updateOne_ack (filter : Tag → Bool) (f : Tag → Tag) (coll : List Tag) :
    (updateOne filter f coll).1.acknowledged = true := by
  induction coll with
  | nil => rfl
  | cons t rest ih =>
    simp only [updateOne]
    by_cases h : filter t
    · by_cases h2 : f t = t <;> simp [h, h2]
    · simpa [h] using ih

/-- If no document matches the filter, updateOne modifies nothing and
leaves the collection unchanged. -/
theorem updateOne_nomatch (filter : Tag → Bool) (f : Tag → Tag) (coll : List Tag)
    (h : ∀ t ∈ coll, filter t = false) :
    updateOne filter f coll = (⟨true, 0⟩, coll) := by
  induction coll with
  | nil => rfl
  | cons t rest ih =>
    have ht : filter t = false := h t (List.mem_cons_self t rest)
    have hrest := ih fun x hx => h x (List.mem_cons_of_mem t hx)
    simp [updateOne, ht, hrest]

/-- If the documents before t do not match, t matches, and the write
changes t, then updateOne rewrites exactly t and reports one modification. -/
theorem updateOne_match (filter : Tag → Bool) (f : Tag → Tag)
    (pre post : List Tag) (t : Tag)
    (hpre : ∀ x ∈ pre, filter x = false) (ht : filter t = true) (hne : f t ≠ t) :
    updateOne filter f (pre ++ t :: post) = (⟨true, 1⟩, pre ++ f t :: post) := by
  induction pre with
  | nil => simp [updateOne, ht, hne]
  | cons a pre ih =>
    have ha : filter a = false := hpre a (List.mem_cons_self a pre)
    have hrec := ih fun x hx => hpre x (List.mem_cons_of_mem a hx)
    simp [updateOne, ha, hrec]

/-- Inversion: a reported modification locates a unique first match whose
rewrite changed it. -/
theorem updateOne_modified (filter : Tag → Bool) (f : Tag → Tag) (coll : List Tag)
    (h : 0 < (updateOne filter f coll).1.modifiedCount) :
    ∃ pre t post, coll = pre ++ t :: post ∧ (∀ x ∈ pre, filter x = false) ∧
      filter t = true ∧ f t ≠ t ∧
      (updateOne filter f coll).2 = pre ++ f t :: post := by
  induction coll with
  | nil => simp [updateOne] at h
  | cons a rest ih =>
    by_cases ha : filter a
    · by_cases h2 : f a = a
      · simp [updateOne, ha, h2] at h
      · refine ⟨[], a, rest, by simp, by simp, ha, h2, ?_⟩
        simp [updateOne, ha, h2]
    · have hh : 0 < (updateOne filter f rest).1.modifiedCount := by
        simpa [updateOne, ha] using h
      obtain ⟨pre, t, post, hc, hpre, hft, hne, hsnd⟩ := ih hh
      refine ⟨a :: pre, t, post, by simp [hc], ?_, hft, hne, ?_⟩
      · intro x hx
        rcases List.mem_cons.mp hx with hx | hx
        · simpa [hx] using eq_false_of_ne_true (by simpa using ha)
        · exact hpre x hx
      · simp [updateOne, ha, hsnd]

/-- updateOne modifies a document exactly when the resulting collection
differs from the original. -/
theorem updateOne_changed_iff (filter : Tag → Bool) (f : Tag → Tag) (coll : List Tag) :
    0 < (updateOne filter f coll).1.modifiedCount ↔
      (updateOne filter f coll).2 ≠ coll := by
  induction coll with
  | nil => simp [updateOne]
  | cons a rest ih =>
    by_cases ha : filter a
    · by_cases h2 : f a = a
      · simp [updateOne, ha, h2]
      · simp [updateOne, ha, h2]
    · simpa [updateOne, ha] using ih

/-- In a collection with pairwise-distinct ids, a member can be split off
with every other element carrying a different id. -/
theorem mem_pairwise_split (coll : List Tag) (t : Tag)
    (hpw : coll.Pairwise (fun a b => a._id ≠ b._id)) (ht : t ∈ coll) :
    ∃ pre post, coll = pre ++ t :: post ∧
      (∀ x ∈ pre, x._id ≠ t._id) ∧ (∀ x ∈ post, x._id ≠ t._id) := by
  obtain ⟨pre, post, rfl⟩ := List.append_of_mem ht
  refine ⟨pre, post, rfl, ?_, ?_⟩
  · intro x hx
    have := (List.pairwise_append.mp hpw).2.2 x hx t (List.mem_cons_self t post)
    exact this
  · intro x hx
    have := (List.pairwise_cons.mp (List.pairwise_append.mp hpw).2.1).1 x hx
    exact fun hxeq => this hxeq.symm

/-- A document whose id differs from the queried one never passes the
updateTag filter. -/
theorem updateTagFilter_false_of_ne (uid tid : String) (ts : Nat) (x : Tag)
    (hx : x._id ≠ tid) : updateTagFilter uid tid ts x = false := by
  simp [updateTagFilter, hx]

/-- Characterisation of the updateTag filter. -/
theorem updateTagFilter_true_iff (uid tid : String) (ts : Nat) (t : Tag) :
    updateTagFilter uid tid ts t = true ↔
      t._id = tid ∧ t.userId = uid ∧ t.deleted = false ∧
        (t.updateTs = none ∨ ∃ s, t.updateTs = some s ∧ s < ts) := by
  cases hu : t.updateTs with
  | none => simp [updateTagFilter, updateGate, hu, and_assoc]
  | some s => simp [updateTagFilter, updateGate, hu, and_assoc]

/-- A document whose stored updateTs is at least the candidate timestamp
never passes the updateTag filter: the gate rejects stale and tied writes. -/
theorem updateTagFilter_false_of_stale (uid tid : String) (ts : Nat) (t : Tag)
    (s : Nat) (hs : t.updateTs = some s) (hle : ts ≤ s) :
    updateTagFilter uid tid ts t = false := by
  cases hf : updateTagFilter uid tid ts t with
  | false => rfl
  | true =>
    rcases ((updateTagFilter_true_iff uid tid ts t).mp hf).2.2.2 with hn | ⟨s2, hs2, hlt⟩
    · rw [hs] at hn; cases hn
    · rw [hs] at hs2
      cases hs2
      exact absurd hlt (not_lt.mpr hle)

/-- Characterisation of the deleteSoftTag filter: no timestamp appears. -/
theorem softDeleteFilter_true_iff (uid tid : String) (t : Tag) :
    softDeleteFilter uid tid t = true ↔
      t._id = tid ∧ t.userId = uid ∧ t.deleted = false := by
  simp [softDeleteFilter, and_assoc]

/-- In a collection with pairwise-distinct ids, two members with the same
id are the same document. -/
theorem eq_of_same_id (coll : List Tag) (t x : Tag)
    (hpw : coll.Pairwise (fun a b => a._id ≠ b._id))
    (ht : t ∈ coll) (hx : x ∈ coll) (h : x._id = t._id) : x = t := by
  by_contra hne
  exact List.Pairwise.forall (fun a b hab => hab.symm) hpw hx ht hne h

/-- Mapping a function that fixes every element of a list is the identity. -/
theorem map_id_on (f : Tag → Tag) (l : List Tag) (h : ∀ x ∈ l, f x = x) :
    l.map f = l := by
  induction l with
  | nil => rfl
  | cons a rest ih =>
    rw [List.map_cons, h a (List.mem_cons_self a rest),
        ih fun x hx => h x (List.mem_cons_of_mem a hx)]

/-- The updateTag write leaves identity, ownership and the tombstone flag
untouched. -/
theorem updateWrite_fields (u : TagUpdates) (ts : Nat) (t : Tag) :
    (updateWrite u ts t)._id = t._id ∧ (updateWrite u ts t).userId = t.userId ∧
    (updateWrite u ts t).deleted = t.deleted ∧
    (updateWrite u ts t).updateTs = some ts := by
  exact ⟨rfl, rfl, rfl, rfl⟩

/-- Overwriting one accepted write with another leaves exactly the later
write's fields: the write sets every field the earlier write set. -/
theorem updateWrite_updateWrite (u1 u2 : TagUpdates) (ts1 ts2 : Nat) (t : Tag) :
    updateWrite u2 ts2 (updateWrite u1 ts1 t) = updateWrite u2 ts2 t := rfl

/-- If every document fails the updateTag filter, updateTag rejects and
leaves the collection unchanged. -/
theorem updateTag_reject (uid tid : String) (u : TagUpdates) (ts : Nat)
    (coll : List Tag)
    (hall : ∀ x ∈ coll, updateTagFilter uid tid ts x = false) :
    updateTag uid tid u ts coll = (false, coll) := by
  simp [updateTag, updateOne_nomatch _ _ coll hall]

/-- Rejection around a split: every other id differs and the matching
document fails the filter. -/
theorem updateTag_reject_split (uid tid : String) (u : TagUpdates) (ts : Nat)
    (pre post : List Tag) (t : Tag)
    (hpre : ∀ x ∈ pre, x._id ≠ tid) (hpost : ∀ x ∈ post, x._id ≠ tid)
    (htf : updateTagFilter uid tid ts t = false) :
    updateTag uid tid u ts (pre ++ t :: post) = (false, pre ++ t :: post) := by
  apply updateTag_reject
  intro x hx
  rcases List.mem_append.mp hx with hx | hx
  · exact updateTagFilter_false_of_ne uid tid ts x (hpre x hx)
  · rcases List.mem_cons.mp hx with rfl | hx
    · exact htf
    · exact updateTagFilter_false_of_ne uid tid ts x (hpost x hx)

/-- Acceptance: if no earlier document matches and t passes the filter,
updateTag rewrites t with the field changes and the candidate timestamp
and reports success. -/
theorem updateTag_accept (uid tid : String) (u : TagUpdates) (ts : Nat)
    (pre post : List Tag) (t : Tag)
    (hpre : ∀ x ∈ pre, updateTagFilter uid tid ts x = false)
    (ht : updateTagFilter uid tid ts t = true) :
    updateTag uid tid u ts (pre ++ t :: post) =
      (true, pre ++ updateWrite u ts t :: post) := by
  have hne : updateWrite u ts t ≠ t := by
    intro heq
    have h2 : some ts = t.updateTs := congrArg Tag.updateTs heq
    rcases ((updateTagFilter_true_iff uid tid ts t).mp ht).2.2.2 with hn | ⟨s, hs, hlt⟩
    · rw [hn] at h2; cases h2
    · rw [hs] at h2
      cases h2
      exact absurd hlt (lt_irrefl ts)
  have hmatch := updateOne_match (updateTagFilter uid tid ts) (updateWrite u ts)
    pre post t hpre ht hne
  simp [updateTag, hmatch]

/-! Sample documents used by the witnesses and counterexamples. -/

/-- An active owned tag with a stored updateTs of 5. -/
def wTag : Tag := ⟨"a", "d", "l", "u", "x", false, "k", "c", 10, some 5, none, 1⟩

/-- An active owned tag whose updateTs is absent. -/
def wTagNone : Tag := ⟨"b", "d", "l", "u", "x", false, "k", "c", 10, none, none, 1⟩

/-- A tombstone: soft-deleted, payload cleared. -/
def wTomb : Tag := ⟨"a", "d", "l", "u", "", true, "", "", 10, some 5, some 20, 1⟩

/-! The claims. -/

/-- Claim C1: for an active owned tag of the caller, updateTag with a
candidate timestamp at or below the stored updateTs performs no write and
returns false; with a candidate strictly above the stored updateTs, or
with the stored updateTs absent (null), it rewrites the record and
returns true. -/
theorem updateTag_timestamp_gate (uid tid : String) (u : TagUpdates) (ts : Nat)
    (coll : List Tag) (t : Tag)
    (hpw : coll.Pairwise (fun a b => a._id ≠ b._id))
    (ht : t ∈ coll) (hid : t._id = tid) (huid : t.userId = uid)
    (hact : t.deleted = false) :
    (∀ s, t.updateTs = some s → ts ≤ s →
      updateTag uid tid u ts coll = (false, coll)) ∧
    ((t.updateTs = none ∨ ∃ s, t.updateTs = some s ∧ s < ts) →
      updateTag uid tid u ts coll =
        (true, coll.map fun x => if x._id = tid then updateWrite u ts x else x)) := by
  obtain ⟨pre, post, hc, hpre, hpost⟩ := mem_pairwise_split coll t hpw ht
  subst hc
  have hpre2 : ∀ x ∈ pre, x._id ≠ tid := fun x hx h => hpre x hx (h.trans hid.symm)
  have hpost2 : ∀ x ∈ post, x._id ≠ tid := fun x hx h => hpost x hx (h.trans hid.symm)
  constructor
  · intro s hs hle
    exact updateTag_reject_split uid tid u ts pre post t hpre2 hpost2
      (updateTagFilter_false_of_stale uid tid ts t s hs hle)
  · intro hgate
    have hacc := updateTag_accept uid tid u ts pre post t
      (fun x hx => updateTagFilter_false_of_ne uid tid ts x (hpre2 x hx))
      ((updateTagFilter_true_iff uid tid ts t).mpr ⟨hid, huid, hact, hgate⟩)
    have hmap : (pre ++ t :: post).map
        (fun x => if x._id = tid then updateWrite u ts x else x)
        = pre ++ updateWrite u ts t :: post := by
      rw [List.map_append, List.map_cons,
          map_id_on _ pre (fun x hx => if_neg (hpre2 x hx)),
          map_id_on _ post (fun x hx => if_neg (hpost2 x hx)), if_pos hid]
    rw [hacc, hmap]

/-- Witness for C1 at a concrete document: a tied timestamp is rejected
with no write, a strictly newer one is applied. -/
theorem updateTag_timestamp_gate_witness :
    wTag ∈ [wTag] ∧ wTag.updateTs = some 5 ∧ 5 ≤ 5 ∧
    updateTag "u" "a" ⟨"y", "k2", "c2", 2⟩ 5 [wTag] = (false, [wTag]) ∧
    updateTag "u" "a" ⟨"y", "k2", "c2", 2⟩ 9 [wTag] =
      (true, [wTag].map fun x =>
        if x._id = "a" then updateWrite ⟨"y", "k2", "c2", 2⟩ 9 x else x) := by
  refine ⟨by simp, rfl, by decide, ?_, ?_⟩
  · exact (updateTag_timestamp_gate "u" "a" ⟨"y", "k2", "c2", 2⟩ 5 [wTag] wTag
      (by simp) (by simp) rfl rfl rfl).1 5 rfl (by decide)
  · exact (updateTag_timestamp_gate "u" "a" ⟨"y", "k2", "c2", 2⟩ 9 [wTag] wTag
      (by simp) (by simp) rfl rfl rfl).2 (Or.inr ⟨5, rfl, by decide⟩)

/-- Claim C2 (amended): updateTag returns true exactly when a document
was matched and actually modified, which is exactly when the stored
collection changed; every rejection is the value false, never a fault.
Because an accepted match always rewrites updateTs to the strictly newer
candidate, a matched call always modifies the document — a field-change
set equal to the stored values with a newer timestamp returns true. -/
theorem updateTag_true_iff_modified (uid tid : String) (u : TagUpdates)
    (ts : Nat) (coll : List Tag) :
    (updateTag uid tid u ts coll).1 = true ↔
      (updateTag uid tid u ts coll).2 ≠ coll := by
  have hack := updateOne_ack (updateTagFilter uid tid ts) (updateWrite u ts) coll
  have hch := updateOne_changed_iff (updateTagFilter uid tid ts) (updateWrite u ts) coll
  simp only [updateTag]
  rw [hack]
  simpa using hch

/-- Counterexample to C2 as stated: a call whose field-change set equals
the stored values but carries a newer timestamp is matched and returns
true, not false — the write still modifies the document because it
advances updateTs. -/
theorem updateTag_noop_counterexample :
    (updateTag "u" "a" ⟨"x", "k", "c", 1⟩ 6 [wTag]).1 = true ∧
    (updateTag "u" "a" ⟨"x", "k", "c", 1⟩ 6 [wTag]).2 =
      [{ wTag with updateTs := some 6 }] := by decide

/-- Claim C3 (amended): for an active record whose stored updateTs is
absent or below T2, two updateTag calls with timestamps T1 less than T2
converge in either arrival order to the record carrying T2's field values
and updateTs equal to T2; the T1 call applied after the T2 call returns
false with zero side effects.  When T1 arrives first it may itself be
accepted and return true before being overwritten. -/
theorem updateTag_lww (uid tid : String) (u1 u2 : TagUpdates) (ts1 ts2 : Nat)
    (coll : List Tag) (t : Tag)
    (hpw : coll.Pairwise (fun a b => a._id ≠ b._id))
    (ht : t ∈ coll) (hid : t._id = tid) (huid : t.userId = uid)
    (hact : t.deleted = false) (hord : ts1 < ts2)
    (hgate : t.updateTs = none ∨ ∃ s, t.updateTs = some s ∧ s < ts2) :
    (updateTag uid tid u2 ts2 ((updateTag uid tid u1 ts1 coll).2)).1 = true ∧
    (updateTag uid tid u2 ts2 ((updateTag uid tid u1 ts1 coll).2)).2 =
      coll.map (fun x => if x._id = tid then updateWrite u2 ts2 x else x) ∧
    updateTag uid tid u1 ts1 ((updateTag uid tid u2 ts2 coll).2) =
      (false, coll.map (fun x => if x._id = tid then updateWrite u2 ts2 x else x)) := by
  obtain ⟨pre, post, hc, hpre, hpost⟩ := mem_pairwise_split coll t hpw ht
  subst hc
  have hpre2 : ∀ x ∈ pre, x._id ≠ tid := fun x hx h => hpre x hx (h.trans hid.symm)
  have hpost2 : ∀ x ∈ post, x._id ≠ tid := fun x hx h => hpost x hx (h.trans hid.symm)
  have hprefalse : ∀ ts, ∀ x ∈ pre, updateTagFilter uid tid ts x = false :=
    fun ts x hx => updateTagFilter_false_of_ne uid tid ts x (hpre2 x hx)
  have hmap : (pre ++ t :: post).map
      (fun x => if x._id = tid then updateWrite u2 ts2 x else x)
      = pre ++ updateWrite u2 ts2 t :: post := by
    rw [List.map_append, List.map_cons,
        map_id_on _ pre (fun x hx => if_neg (hpre2 x hx)),
        map_id_on _ post (fun x hx => if_neg (hpost2 x hx)), if_pos hid]
  have hwin : ∀ t0 : Tag, t0._id = tid → t0.userId = uid → t0.deleted = false →
      (t0.updateTs = none ∨ ∃ s, t0.updateTs = some s ∧ s < ts2) →
      updateTag uid tid u2 ts2 (pre ++ t0 :: post) =
        (true, pre ++ updateWrite u2 ts2 t0 :: post) := fun t0 h1 h2 h3 h4 =>
    updateTag_accept uid tid u2 ts2 pre post t0 (hprefalse ts2)
      ((updateTagFilter_true_iff uid tid ts2 t0).mpr ⟨h1, h2, h3, h4⟩)
  have hfirst : (updateTag uid tid u1 ts1 (pre ++ t :: post)).2 = pre ++ t :: post ∨
      (updateTag uid tid u1 ts1 (pre ++ t :: post)).2 =
        pre ++ updateWrite u1 ts1 t :: post := by
    rcases hgate with hnone | ⟨s, hs, hslt⟩
    · right
      rw [updateTag_accept uid tid u1 ts1 pre post t (hprefalse ts1)
        ((updateTagFilter_true_iff uid tid ts1 t).mpr ⟨hid, huid, hact, Or.inl hnone⟩)]
    · by_cases h1 : s < ts1
      · right
        rw [updateTag_accept uid tid u1 ts1 pre post t (hprefalse ts1)
          ((updateTagFilter_true_iff uid tid ts1 t).mpr
            ⟨hid, huid, hact, Or.inr ⟨s, hs, h1⟩⟩)]
      · left
        rw [updateTag_reject_split uid tid u1 ts1 pre post t hpre2 hpost2
          (updateTagFilter_false_of_stale uid tid ts1 t s hs (not_lt.mp h1))]
  have hconv : updateTag uid tid u2 ts2 ((updateTag uid tid u1 ts1 (pre ++ t :: post)).2)
      = (true, pre ++ updateWrite u2 ts2 t :: post) := by
    rcases hfirst with hf | hf
    · rw [hf]
      exact hwin t hid huid hact hgate
    · rw [hf]
      have hw := hwin (updateWrite u1 ts1 t)
        ((updateWrite_fields u1 ts1 t).1.trans hid)
        ((updateWrite_fields u1 ts1 t).2.1.trans huid)
        ((updateWrite_fields u1 ts1 t).2.2.1.trans hact)
        (Or.inr ⟨ts1, (updateWrite_fields u1 ts1 t).2.2.2, hord⟩)
      rw [hw, updateWrite_updateWrite]
  have hacc2 := hwin t hid huid hact hgate
  refine ⟨by rw [hconv], by rw [hconv, hmap], ?_⟩
  rw [hacc2, hmap]
  exact updateTag_reject_split uid tid u1 ts1 pre post (updateWrite u2 ts2 t)
    hpre2 hpost2
    (updateTagFilter_false_of_stale uid tid ts1 (updateWrite u2 ts2 t) ts2
      (updateWrite_fields u2 ts2 t).2.2.2 (le_of_lt hord))

/-- Counterexample to C3 as stated: when the T1 call arrives first it is
accepted and returns true, so the losing caller does not observe false;
the T2 call then also returns true. -/
theorem updateTag_lww_counterexample :
    (updateTag "u" "b" ⟨"p1", "k1", "c1", 1⟩ 1 [wTagNone]).1 = true ∧
    (updateTag "u" "b" ⟨"p2", "k2", "c2", 2⟩ 2
      ((updateTag "u" "b" ⟨"p1", "k1", "c1", 1⟩ 1 [wTagNone]).2)).1 = true := by
  decide

/-- Witness for C3 at a concrete document with stored updateTs 5 and
racing timestamps 7 and 9. -/
theorem updateTag_lww_witness :
    wTag ∈ [wTag] ∧ (7 : Nat) < 9 ∧ wTag.updateTs = some 5 ∧
    updateTag "u" "a" ⟨"p1", "k1", "c1", 1⟩ 7
        ((updateTag "u" "a" ⟨"p2", "k2", "c2", 2⟩ 9 [wTag]).2) =
      (false, [wTag].map fun x =>
        if x._id = "a" then updateWrite ⟨"p2", "k2", "c2", 2⟩ 9 x else x) := by
  refine ⟨by simp, by decide, rfl, ?_⟩
  exact (updateTag_lww "u" "a" ⟨"p1", "k1", "c1", 1⟩ ⟨"p2", "k2", "c2", 2⟩ 7 9
    [wTag] wTag (by simp) (by simp) rfl rfl rfl (by decide)
    (Or.inr ⟨5, rfl, by decide⟩)).2.2

/-- The apiFields projection lists every field, so it returns the
document unchanged. -/
theorem apiFieldsProj_id (t : Tag) : apiFieldsProj t = t := rfl

/-- The sync projection returns the document unchanged. -/
theorem apiFieldsSyncProj_id (t : Tag) : apiFieldsSyncProj t = t := rfl

/-- getAllCurrentTags is the active-record filter. -/
theorem getAllCurrentTags_eq (uid : String) (l : List Tag) :
    getAllCurrentTags uid l =
      l.filter (fun x => x.userId == uid && x.deleted == false) := by
  unfold getAllCurrentTags find
  exact map_id_on _ _ (fun x _ => rfl)

/-- getAllTagsSync filters on the user only: tombstones are included and
the documents are returned in full. -/
theorem getAllTagsSync_eq (uid : String) (l : List Tag) :
    getAllTagsSync uid l = l.filter (fun x => x.userId == uid) := by
  unfold getAllTagsSync find
  exact map_id_on _ _ (fun x _ => rfl)

/-- Claim C4: deleteSoftTag matches solely on (id, userId, deleted=false)
— no timestamp condition, so it succeeds for every deleteTs, including one
below the stored updateTs — and on success sets deleted, clears tag,
encKey and encConfig, and records deleteTs. -/
theorem deleteSoftTag_tombstones (uid tid : String) (dts : Nat)
    (coll : List Tag) (t : Tag)
    (hpw : coll.Pairwise (fun a b => a._id ≠ b._id))
    (ht : t ∈ coll) (hid : t._id = tid) (huid : t.userId = uid)
    (hact : t.deleted = false) :
    deleteSoftTag uid tid dts coll =
      (true, coll.map fun x => if x._id = tid then softDeleteWrite dts x else x) := by
  obtain ⟨pre, post, hc, hpre, hpost⟩ := mem_pairwise_split coll t hpw ht
  subst hc
  have hpre2 : ∀ x ∈ pre, x._id ≠ tid := fun x hx h => hpre x hx (h.trans hid.symm)
  have hpost2 : ∀ x ∈ post, x._id ≠ tid := fun x hx h => hpost x hx (h.trans hid.symm)
  have hne : softDeleteWrite dts t ≠ t := by
    intro heq
    have h2 : (true : Bool) = t.deleted := congrArg Tag.deleted heq
    rw [hact] at h2
    cases h2
  have hprefalse : ∀ x ∈ pre, softDeleteFilter uid tid x = false := by
    intro x hx
    simp [softDeleteFilter, hpre2 x hx]
  have htrue : softDeleteFilter uid tid t = true :=
    (softDeleteFilter_true_iff uid tid t).mpr ⟨hid, huid, hact⟩
  have hmatch := updateOne_match (softDeleteFilter uid tid) (softDeleteWrite dts)
    pre post t hprefalse htrue hne
  have hmap : (pre ++ t :: post).map
      (fun x => if x._id = tid then softDeleteWrite dts x else x)
      = pre ++ softDeleteWrite dts t :: post := by
    rw [List.map_append, List.map_cons,
        map_id_on _ pre (fun x hx => if_neg (hpre2 x hx)),
        map_id_on _ post (fun x hx => if_neg (hpost2 x hx)), if_pos hid]
  simp [deleteSoftTag, hmatch, hmap]

/-- Witness for C4: the soft delete succeeds with a deleteTs of 1 even
though the stored updateTs is 5. -/
theorem deleteSoftTag_tombstones_witness :
    wTag ∈ [wTag] ∧ wTag.updateTs = some 5 ∧ (1 : Nat) < 5 ∧
    deleteSoftTag "u" "a" 1 [wTag] =
      (true, [wTag].map fun x => if x._id = "a" then softDeleteWrite 1 x else x) := by
  refine ⟨by simp, rfl, by decide, ?_⟩
  exact deleteSoftTag_tombstones "u" "a" 1 [wTag] wTag (by simp) (by simp) rfl rfl rfl

/-- Claim C5: a tombstoned record is frozen: for every timestamp and
field-change set, updateTag, updateTagDetails and deleteSoftTag return
false and leave the collection unchanged — a tombstone is never
resurrected or given payload by a later-timestamped update. -/
theorem tombstone_frozen (uid tid : String) (coll : List Tag)
    (h : ∀ t ∈ coll, t._id = tid → t.userId = uid → t.deleted = true) :
    (∀ u ts, updateTag uid tid u ts coll = (false, coll)) ∧
    (∀ tg k c ts v, updateTagDetails uid tid tg k c ts v coll = (false, coll)) ∧
    (∀ dts, deleteSoftTag uid tid dts coll = (false, coll)) := by
  have hall : ∀ x ∈ coll,
      (x._id == tid && x.userId == uid && x.deleted == false) = false := by
    intro x hx
    by_cases h1 : x._id = tid
    · by_cases h2 : x.userId = uid
      · simp [h1, h2, h x hx h1 h2]
      · simp [h2]
    · simp [h1]
  have hupd : ∀ ts, ∀ x ∈ coll, updateTagFilter uid tid ts x = false := by
    intro ts x hx
    unfold updateTagFilter
    rw [hall x hx, Bool.false_and]
  refine ⟨fun u ts => updateTag_reject uid tid u ts coll (hupd ts), ?_, ?_⟩
  · intro tg k c ts v
    have hr := updateTag_reject uid tid ⟨tg, k, c, v⟩ ts coll (hupd ts)
    simp [updateTagDetails, hr]
  · intro dts
    have hsoft : ∀ x ∈ coll, softDeleteFilter uid tid x = false := by
      intro x hx
      unfold softDeleteFilter
      exact hall x hx
    simp [deleteSoftTag, updateOne_nomatch _ _ coll hsoft]

/-- Witness for C5: no operation touches a concrete tombstone. -/
theorem tombstone_frozen_witness :
    wTomb.deleted = true ∧
    updateTag "u" "a" ⟨"y", "k", "c", 2⟩ 99 [wTomb] = (false, [wTomb]) ∧
    updateTagDetails "u" "a" "y" "k" "c" 99 2 [wTomb] = (false, [wTomb]) ∧
    deleteSoftTag "u" "a" 99 [wTomb] = (false, [wTomb]) := by
  have h := tombstone_frozen "u" "a" [wTomb] (by decide)
  exact ⟨rfl, h.1 ⟨"y", "k", "c", 2⟩ 99, h.2.1 "y" "k" "c" 99 2, h.2.2 99⟩

/-- Claim C6: after a successful deleteSoftTag, getAllCurrentTags for the
user no longer returns the record, while getAllTagsSync still returns it,
tombstoned and with an empty payload; getAllTagsSync returns every record
of the user, tombstones included, in full. -/
theorem softDelete_sync_visibility (uid tid : String) (dts : Nat) (coll : List Tag)
    (hpw : coll.Pairwise (fun a b => a._id ≠ b._id))
    (hb : (deleteSoftTag uid tid dts coll).1 = true) :
    ((getAllCurrentTags uid (deleteSoftTag uid tid dts coll).2).all
      (fun r => !(r._id == tid))) = true ∧
    ((getAllTagsSync uid (deleteSoftTag uid tid dts coll).2).any
      (fun r => r._id == tid && r.deleted && r.tag == "" && r.encKey == "" &&
        r.encConfig == "")) = true ∧
    getAllTagsSync uid (deleteSoftTag uid tid dts coll).2 =
      (deleteSoftTag uid tid dts coll).2.filter (fun x => x.userId == uid) := by
  have hmc : 0 < (updateOne (softDeleteFilter uid tid)
      (softDeleteWrite dts) coll).1.modifiedCount := by
    simp [deleteSoftTag] at hb
    exact hb.2
  obtain ⟨pre, t, post, hc, hpre, hft, hne, hsnd⟩ :=
    updateOne_modified (softDeleteFilter uid tid) (softDeleteWrite dts) coll hmc
  obtain ⟨hid, huid, hact⟩ := (softDeleteFilter_true_iff uid tid t).mp hft
  subst hc
  have hcoll2 : (deleteSoftTag uid tid dts (pre ++ t :: post)).2 =
      pre ++ softDeleteWrite dts t :: post := by
    simp [deleteSoftTag, hsnd]
  have hpostid : ∀ x ∈ post, x._id ≠ tid := by
    intro x hx hxid
    have hne2 := (List.pairwise_cons.mp (List.pairwise_append.mp hpw).2.1).1 x hx
    exact hne2 (hid.trans hxid.symm)
  refine ⟨?_, ?_, getAllTagsSync_eq uid _⟩
  · rw [List.all_eq_true]
    intro r hr
    rw [hcoll2, getAllCurrentTags_eq] at hr
    obtain ⟨hrmem, hrpred⟩ := List.mem_filter.mp hr
    have hrdel : r.deleted = false := by
      simp at hrpred
      exact hrpred.2
    have hruid : r.userId = uid := by
      simp at hrpred
      exact hrpred.1
    simp only [Bool.not_eq_eq_eq_not, Bool.not_true, beq_eq_false_iff_ne, ne_eq]
    intro hrid
    rcases List.mem_append.mp hrmem with hx | hx
    · have := hpre r hx
      rw [(softDeleteFilter_true_iff uid tid r).mpr ⟨hrid, hruid, hrdel⟩] at this
      cases this
    · rcases List.mem_cons.mp hx with rfl | hx
      · have : (softDeleteWrite dts t).deleted = true := rfl
        rw [hrdel] at this
        cases this
      · exact hpostid r hx hrid
  · rw [List.any_eq_true]
    refine ⟨softDeleteWrite dts t, ?_, ?_⟩
    · rw [hcoll2, getAllTagsSync_eq]
      refine List.mem_filter.mpr ⟨?_, ?_⟩
      · exact List.mem_append.mpr (Or.inr (List.mem_cons_self _ _))
      · have : (softDeleteWrite dts t).userId = uid := huid
        simp [this]
    · simp [softDeleteWrite, hid]

/-- Witness for C6 on a concrete collection. -/
theorem softDelete_sync_visibility_witness :
    (deleteSoftTag "u" "a" 20 [wTag]).1 = true ∧
    ((getAllCurrentTags "u" (deleteSoftTag "u" "a" 20 [wTag]).2).all
      (fun r => !(r._id == "a"))) = true ∧
    ((getAllTagsSync "u" (deleteSoftTag "u" "a" 20 [wTag]).2).any
      (fun r => r._id == "a" && r.deleted && r.tag == "" && r.encKey == "" &&
        r.encConfig == "")) = true := by
  have h := softDelete_sync_visibility "u" "a" 20 [wTag] (by simp) (by decide)
  exact ⟨by decide, h.1, h.2.1⟩

/-- The batch import walks the list in order, appending each successfully
created document, and stops at the first failed create. -/
theorem addTagsFromJson_eq (ok : ImportTag → Bool) (now : Nat) (coll : List Tag)
    (l : List ImportTag) :
    addTagsFromJson ok now coll l =
      (l.all ok, coll ++ (l.takeWhile ok).map (importDoc now)) := by
  induction l generalizing coll with
  | nil => simp [addTagsFromJson]
  | cons r rest ih =>
    by_cases hr : ok r
    · simp [addTagsFromJson, hr, ih, List.takeWhile_cons]
    · simp [addTagsFromJson, hr, List.takeWhile_cons]

/-- takeWhile over a batch whose prefix succeeds and whose next record
fails keeps exactly the prefix. -/
theorem takeWhile_all_append (ok : ImportTag → Bool) (pre : List ImportTag)
    (r : ImportTag) (rest : List ImportTag)
    (hpre : ∀ x ∈ pre, ok x = true) (hr : ok r = false) :
    (pre ++ r :: rest).takeWhile ok = pre := by
  induction pre with
  | nil => simp [List.takeWhile_cons, hr]
  | cons a pre ih =>
    have ha : ok a = true := hpre a (List.mem_cons_self a pre)
    simp [List.takeWhile_cons, ha,
      ih (fun x hx => hpre x (List.mem_cons_of_mem a hx))]

/-! Sample batch records used by the import witnesses. -/

/-- First batch record. -/
def wImp1 : ImportTag := ⟨"i1", "d", "l", "u", false, "t1", "k", "c", 1, some 2, none, 1⟩

/-- Second batch record, the one whose create fails in the witness. -/
def wImp2 : ImportTag := ⟨"i2", "d", "l", "u", false, "t2", "k", "c", 1, some 2, none, 1⟩

/-- Third batch record, never attempted in the witness. -/
def wImp3 : ImportTag := ⟨"i3", "d", "l", "u", false, "t3", "k", "c", 1, some 2, none, 1⟩

/-- Claim C7: bulkImport inserts in order and stops at the first record
whose create does not return a truthy document, returning false; the
documents inserted before the failure remain (no rollback), the records
after it are never attempted, and the call returns true exactly when the
whole batch inserted. -/
theorem bulkImport_stops_at_first_failure (ok : ImportTag → Bool) (now : Nat)
    (coll : List Tag) (pre : List ImportTag) (r : ImportTag) (rest : List ImportTag)
    (hpre : ∀ x ∈ pre, ok x = true) (hr : ok r = false) :
    addTagsFromJson ok now coll (pre ++ r :: rest) =
      (false, coll ++ pre.map (importDoc now)) ∧
    ∀ l : List ImportTag,
      ((addTagsFromJson ok now coll l).1 = true ↔ l.all ok = true) := by
  constructor
  · rw [addTagsFromJson_eq, takeWhile_all_append ok pre r rest hpre hr]
    have h1 : (pre ++ r :: rest).all ok = false := by
      simp [List.all_append, hr]
    rw [h1]
  · intro l
    rw [addTagsFromJson_eq]

/-- Witness for C7: a three-record batch whose second create fails keeps
only the first document and reports failure. -/
theorem bulkImport_stops_witness :
    (fun x : ImportTag => !(x._id == "i2")) wImp2 = false ∧
    addTagsFromJson (fun x => !(x._id == "i2")) 7 [] [wImp1, wImp2, wImp3] =
      (false, [] ++ [wImp1].map (importDoc 7)) :=
  ⟨by decide, (bulkImport_stops_at_first_failure (fun x => !(x._id == "i2")) 7 []
    [wImp1] wImp2 [wImp3] (by decide) (by decide)).1⟩

/-- Claim C8: the shared-collection operations coincide with their owned
counterparts on every input: updateTagShared applies the same match
filter, write and result rule as updateTag, and updateTagDetailsShared
passes the same field-change set to the shared writer as updateTagDetails
passes to the owned one. -/
theorem shared_mirrors_owned (uid tid : String) (u : TagUpdates) (ts : Nat)
    (tg k c : String) (v : Nat) (coll : List Tag) :
    updateTagShared uid tid u ts coll = updateTag uid tid u ts coll ∧
    updateTagDetailsShared uid tid tg k c ts v coll =
      updateTagShared uid tid ⟨tg, k, c, v⟩ ts coll ∧
    updateTagDetailsShared uid tid tg k c ts v coll =
      updateTagDetails uid tid tg k c ts v coll := by
  refine ⟨rfl, ?_, rfl⟩
  unfold updateTagDetailsShared
  cases h : (updateTagShared uid tid ⟨tg, k, c, v⟩ ts coll).1 <;>
    simp [h, Prod.ext_iff]

/-- Claim C9: every document stored by the import carries the server time
as its updateTs — the updateTs carried by the imported record is
discarded — while _id, createTs, deleteTs and the deleted flag are taken
from the record unchanged. -/
theorem bulkImport_server_timestamps (ok : ImportTag → Bool) (now : Nat)
    (coll : List Tag) (l : List ImportTag) :
    (addTagsFromJson ok now coll l).2 =
      coll ++ (l.takeWhile ok).map (importDoc now) ∧
    ∀ (r : ImportTag) (x : Option Nat),
      (importDoc now r).updateTs = some now ∧
      importDoc now { r with updateTs := x } = importDoc now r ∧
      (importDoc now r)._id = r._id ∧
      (importDoc now r).createTs = r.createTs ∧
      (importDoc now r).deleteTs = r.deleteTs ∧
      (importDoc now r).deleted = r.deleted :=
  ⟨by rw [addTagsFromJson_eq], fun r x => ⟨rfl, rfl, rfl, rfl, rfl, rfl⟩⟩

/-- Claim C10: getAllTagsForBackup returns exactly the user's active
documents — tombstones are excluded from the backup read path — and each
returned document is the stored document itself, unprojected. -/
theorem backup_excludes_tombstones (uid : String) (coll : List Tag) :
    getAllTagsForBackup uid coll =
      coll.filter (fun t => t.userId == uid && t.deleted == false) ∧
    ∀ r ∈ getAllTagsForBackup uid coll,
      r ∈ coll ∧ r.userId = uid ∧ r.deleted = false := by
  refine ⟨rfl, ?_⟩
  intro r hr
  obtain ⟨hmem, hpred⟩ := List.mem_filter.mp hr
  simp at hpred
  exact ⟨hmem, hpred.1, hpred.2⟩

/-- Witness for C10: the active document is returned verbatim, the
tombstone is not. -/
theorem backup_excludes_tombstones_witness :
    wTag ∈ getAllTagsForBackup "u" [wTag, wTomb] ∧
    (wTag ∈ [wTag, wTomb] ∧ wTag.userId = "u" ∧ wTag.deleted = false) ∧
    getAllTagsForBackup "u" [wTag, wTomb] = [wTag] :=
  ⟨by decide,
   (backup_excludes_tombstones "u" [wTag, wTomb]).2 wTag (by decide),
   by decide⟩

end TagService
